import Mathlib

/-!
# headscale_sd: tag extraction and inventory fetch

A shallow embedding of `main.go`: the pure target extractor
`ParseDiscoveryTargets` with its helper `uniq`, and the decision part of
`HeadscaleList` (what it returns once the HTTP round trip has produced an
outcome).

Go strings are modelled as Lean `String`s (sequences of Unicode scalar
values).  The strings this program handles come out of `json.Unmarshal`, which
always yields valid UTF-8; on valid UTF-8 the byte-wise operations of Go
(`strings.HasPrefix`, `strings.Cut` on the ASCII separator, `strconv.Atoi`, the
`<` used by `sort.Strings`) agree with the character-wise ones used here.
-/

namespace HeadscaleSD

/-! ## Data model -/

/-- One element of `ListMachineResponse.Machines`.  Only the fields that the
program reads are kept; the remaining JSON fields are decoded and ignored. -/
structure Machine where
  IpAddresses : List String
  ForcedTags : List String
  InvalidTags : List String
  ValidTags : List String
  GivenName : String
  deriving DecidableEq, Repr

/-- The decoded body of the node listing (`type ListMachineResponse`). -/
structure ListMachineResponse where
  Machines : List Machine
  deriving DecidableEq, Repr

/-- The output record (`type DiscoveryTarget`).  The Go `map[string]string` is
kept as the list of its entries, in the order of the map literal that builds
it. -/
structure DiscoveryTarget where
  Targets : List String
  Labels : List (String × String)
  deriving DecidableEq, Repr

/-! ## Library functions used by the program -/

/-- Go `strings.HasPrefix`. -/
def HasPrefix (s pre : String) : Bool :=
  pre.data.isPrefixOf s.data

/-- Go `strings.TrimPrefix`: `s` without the leading `pre` when it has it, else
`s` unchanged. -/
def TrimPrefix (s pre : String) : String :=
  if HasPrefix s pre then ⟨s.data.drop pre.data.length⟩ else s

/-- Go `strings.Index` on character lists: position of the first occurrence of
`sep`, `none` standing for `-1`. -/
def indexChars (sep : List Char) : List Char → Option Nat
  | [] => if sep.isPrefixOf [] then some 0 else none
  | c :: cs =>
    if sep.isPrefixOf (c :: cs) then some 0
    else (indexChars sep cs).map (· + 1)

/-- Go `strings.Index`. -/
def Index (s sep : String) : Option Nat :=
  indexChars sep.data s.data

/-- Go `strings.Cut`: `(before, after, found)` around the first occurrence of
`sep`; `(s, "", false)` when `sep` does not occur. -/
def Cut (s sep : String) : String × String × Bool :=
  match Index s sep with
  | some i => (⟨s.data.take i⟩, ⟨s.data.drop (i + sep.data.length)⟩, true)
  | none => (s, "", false)

/-- The decimal digit loop shared by both paths of `strconv.Atoi`: the value of
a string of ASCII digits, accumulated from `n`; `none` on any other character.
The value is computed without bound, the range is checked by the callers. -/
def parseDigits : List Char → Nat → Option Nat
  | [], n => some n
  | c :: cs, n =>
    if '0' ≤ c ∧ c ≤ '9' then parseDigits cs (n * 10 + (c.toNat - '0'.toNat))
    else none

/-- Go `strconv.ParseUint(s, 10, bitSize)`: syntax error on the empty string or
a non-digit, range error when the value exceeds `2 ^ bitSize - 1`. -/
def ParseUint (s : List Char) (bitSize : Nat) : Option Nat :=
  match s with
  | [] => none
  | _ :: _ =>
    match parseDigits s 0 with
    | none => none
    | some n => if n < 2 ^ bitSize then some n else none

/-- Go `strconv.ParseInt(s, 10, bitSize)` for `bitSize ≠ 0`: optional sign, then
`ParseUint`, then the signed range check against `cutoff = 1 << (bitSize-1)`. -/
def ParseInt (s : List Char) (bitSize : Nat) : Option Int :=
  match s with
  | [] => none
  | c :: cs =>
    let neg := c == '-'
    let rest := if c == '+' || c == '-' then cs else c :: cs
    match ParseUint rest bitSize with
    | none => none
    | some un =>
      let cutoff := 2 ^ (bitSize - 1)
      if !neg && un ≥ cutoff then none
      else if neg && un > cutoff then none
      else some (if neg then -(un : Int) else (un : Int))

/-- Go `strconv.Atoi`, `intSize` being the width of `int` on the platform
(`strconv.IntSize`, 32 or 64).  Short inputs take the fast path, which cannot
overflow; everything else goes through `ParseInt(s, 10, 0)`. -/
def Atoi (intSize : Nat) (s : String) : Option Int :=
  let sLen := s.data.length
  if (intSize = 32 ∧ 0 < sLen ∧ sLen < 10) ∨ (intSize = 64 ∧ 0 < sLen ∧ sLen < 19) then
    match s.data with
    | [] => none
    | c :: cs =>
      let digits := if c == '-' || c == '+' then cs else c :: cs
      if digits.length < 1 then none
      else
        match parseDigits digits 0 with
        | none => none
        | some n => some (if c == '-' then -(n : Int) else (n : Int))
  else ParseInt s.data intSize

/-- Go `fmt.Sprintf("%d", n)` for an `int`. -/
def formatInt (n : Int) : String :=
  toString n

/-- The relation `sort.Strings` sorts by: `a` is not after `b` in the
lexicographic order of their characters. -/
def stringLE (a b : String) : Prop :=
  a.data ≤ b.data

instance stringLE.decidable : DecidableRel stringLE :=
  fun a b => inferInstanceAs (Decidable (a.data ≤ b.data))

/-- Go `sort.Strings`: the ascending arrangement of the list. -/
def sortStrings (l : List String) : List String :=
  l.insertionSort stringLE

/-! ## The program -/

/-- The statement `m[item] = true` on the key set of a `map[string]bool`, kept as
a duplicate-free list of keys. -/
def mapSet (m : List String) (item : String) : List String :=
  if item ∈ m then m else m ++ [item]

/-- `uniq`: collect the items as keys of a map, read the keys back and sort
them.  Go leaves the iteration order of the map unspecified; the sort makes
the result independent of it (`sortStrings_perm`). -/
def uniq (list : List String) : List String :=
  let m := list.foldl mapSet []
  sortStrings m

/-- The body of the inner loop of `ParseDiscoveryTargets` for one tag: `none`
for each `continue`, otherwise the record that is appended. -/
def tagTarget (intSize : Nat) (ip nodeName tag : String) : Option DiscoveryTarget :=
  let tag := TrimPrefix tag "tag:"
  if !HasPrefix tag "scrape_" then none
  else
    let tag := TrimPrefix tag "scrape_"
    match Cut tag "_" with
    | (portStr, appName, found) =>
      if !found then none
      else
        match Atoi intSize portStr with
        | none => none
        | some port =>
          some { Targets := [ip ++ ":" ++ formatInt port],
                 Labels := [("node_name", nodeName), ("app", appName)] }

/-- The body of the outer loop of `ParseDiscoveryTargets` for one machine,
threading the accumulated `result`. -/
def machineStep (intSize : Nat) (result : List DiscoveryTarget) (machine : Machine) :
    List DiscoveryTarget :=
  match machine.IpAddresses with
  | [] => result
  | ip :: _ =>
    let nodeName := machine.GivenName
    let allTags := uniq (machine.ForcedTags ++ machine.ValidTags ++ machine.InvalidTags)
    allTags.foldl
      (fun result tag =>
        match tagTarget intSize ip nodeName tag with
        | none => result
        | some target => result ++ [target])
      result

/-- `ParseDiscoveryTargets`. -/
def ParseDiscoveryTargets (intSize : Nat) (list : ListMachineResponse) :
    List DiscoveryTarget :=
  list.Machines.foldl (machineStep intSize) []

/-- What the HTTP round trip of `HeadscaleList` can produce before the function
decides on its return value: the failure of one of the three I/O steps, with
the text of the underlying error, or a response whose body was read. -/
inductive Upstream where
  | requestError (err : String)
  | callError (err : String)
  | readError (err : String)
  | response (statusCode : Int) (data : String)
  deriving DecidableEq, Repr

/-- Go `http.StatusOK`. -/
def StatusOK : Int := 200

/-- `HeadscaleList`, as a function of the outcome of its I/O and of
`json.Unmarshal` (which returns either the decoded value or the text of its
error). -/
def HeadscaleList (unmarshal : String → Except String ListMachineResponse)
    (up : Upstream) : Except String ListMachineResponse :=
  match up with
  | .requestError err => .error ("cant create request: " ++ err)
  | .callError err => .error ("cant make http call: " ++ err)
  | .readError err => .error ("cant read body: " ++ err)
  | .response statusCode data =>
    if statusCode ≠ StatusOK then
      .error ("invalid response status code: " ++ formatInt statusCode ++ "; body: " ++ data)
    else
      match unmarshal data with
      | .error err => .error ("cant parse response: " ++ err ++ "; body: " ++ data)
      | .ok parsedResponse => .ok parsedResponse

/-! ## Vocabulary of the statements -/

/-- The record built for node `nodeName` at `ip` from port `port` and application
`appName`. -/
def mkTarget (ip nodeName : String) (port : Int) (appName : String) : DiscoveryTarget :=
  { Targets := [ip ++ ":" ++ formatInt port],
    Labels := [("node_name", nodeName), ("app", appName)] }

/-- The three tag collections of a machine, concatenated as the program does. -/
def Machine.allTags (machine : Machine) : List String :=
  machine.ForcedTags ++ machine.ValidTags ++ machine.InvalidTags

/-- The records one machine contributes: none without an address, otherwise
one per tag of `uniq` that passes the loop body, in that order. -/
def machineTargets (intSize : Nat) (machine : Machine) : List DiscoveryTarget :=
  match machine.IpAddresses with
  | [] => []
  | ip :: _ => (uniq machine.allTags).filterMap (tagTarget intSize ip machine.GivenName)

/-- The machine with every occurrence of `t` removed from its three tag
collections. -/
def removeTag (t : String) (machine : Machine) : Machine :=
  { machine with
    ForcedTags := machine.ForcedTags.filter (fun x => decide (x ≠ t))
    ValidTags := machine.ValidTags.filter (fun x => decide (x ≠ t))
    InvalidTags := machine.InvalidTags.filter (fun x => decide (x ≠ t)) }

/-- The qualifying shape of a tag: an optional `tag:`, then `scrape_`, an integer
port text, `_`, and a non-empty application name. -/
def Qualifies (intSize : Nat) (t : String) : Prop :=
  ∃ p a n, (t = "scrape_" ++ p ++ "_" ++ a ∨ t = "tag:" ++ ("scrape_" ++ p ++ "_" ++ a)) ∧
    Atoi intSize p = some n ∧ a ≠ ""

/-! ## Concrete inventories -/

/-- The node of the first scenario of the specification. -/
def db1 : Machine :=
  { IpAddresses := ["10.0.0.5"], ForcedTags := [], InvalidTags := [],
    ValidTags := ["tag:scrape_9090_node_exporter", "tag:env_prod"], GivenName := "db1" }

/-- The record the first scenario expects. -/
def db1Record : DiscoveryTarget :=
  { Targets := ["10.0.0.5:9090"], Labels := [("node_name", "db1"), ("app", "node_exporter")] }

/-- The node of the second scenario: a non-numeric port. -/
def web9 : Machine :=
  { IpAddresses := ["10.0.0.9"], ForcedTags := ["scrape_abc_web"], InvalidTags := [],
    ValidTags := [], GivenName := "web9" }

/-- A node without address that carries a qualifying tag. -/
def ghost : Machine :=
  { IpAddresses := [], ForcedTags := ["tag:scrape_9100_node"], InvalidTags := [],
    ValidTags := ["scrape_80_web"], GivenName := "ghost" }

/-- A node whose two distinct tags give equal records, one of them repeated
within and across collections. -/
def twin : Machine :=
  { IpAddresses := ["10.0.0.7", "fd7a::7"], ForcedTags := ["tag:scrape_80_a"],
    InvalidTags := ["scrape_80_a"],
    ValidTags := ["scrape_80_a", "tag:scrape_80_a", "scrape_80_a"], GivenName := "twin" }

/-- The node `twin` with its tags rearranged over the collections. -/
def twinShuffled : Machine :=
  { IpAddresses := ["10.0.0.7", "fd7a::7"], ForcedTags := [],
    InvalidTags := ["tag:scrape_80_a", "scrape_80_a"],
    ValidTags := [], GivenName := "twin" }

/-- The record both tags of `twin` give. -/
def twinRecord : DiscoveryTarget :=
  { Targets := ["10.0.0.7:80"], Labels := [("node_name", "twin"), ("app", "a")] }

/-- A node whose only tag writes its port with leading zeros. -/
def padded : Machine :=
  { IpAddresses := ["10.0.0.5"], ForcedTags := [], InvalidTags := [],
    ValidTags := ["scrape_0080_web"], GivenName := "db1" }

/-- A node whose only tag has nothing after the separator. -/
def bare : Machine :=
  { IpAddresses := ["10.0.0.9"], ForcedTags := ["scrape_80_"], InvalidTags := [],
    ValidTags := [], GivenName := "web9" }

/-- A node with five spellings of a port: leading zeros, an explicit sign, a
negative number, a number above 65535 and a number beyond 64 bits. -/
def ports : Machine :=
  { IpAddresses := ["10.0.0.8"], ForcedTags := ["scrape_0080_web", "scrape_-5_web"],
    InvalidTags := ["scrape_99999999999999999999_web"],
    ValidTags := ["scrape_+80_web", "scrape_70000_web"], GivenName := "edge" }

/-- The record of node `edge` at 10.0.0.8 for application `web` on `port`. -/
def portsRecord (port : String) : DiscoveryTarget :=
  { Targets := ["10.0.0.8:" ++ port], Labels := [("node_name", "edge"), ("app", "web")] }

/-- A node whose tags sort differently with and without the `tag:` marker. -/
def mixed : Machine :=
  { IpAddresses := ["10.0.0.6"], ForcedTags := ["tag:scrape_1_a"], InvalidTags := [],
    ValidTags := ["scrape_2_b"], GivenName := "mixed" }

/-! ## Facts about `uniq` -/

theorem stringLE_iff (a b : String) : stringLE a b ↔ a ≤ b :=
  String.le_iff_toList_le.symm

instance stringLE.isTotal : IsTotal String stringLE :=
  ⟨fun a b => by simpa only [stringLE_iff] using le_total a b⟩

instance stringLE.isTrans : IsTrans String stringLE :=
  ⟨fun a b c => by simpa only [stringLE_iff] using le_trans⟩

instance stringLE.isAntisymm : IsAntisymm String stringLE :=
  ⟨fun a b => by simpa only [stringLE_iff] using le_antisymm⟩

theorem sortStrings_perm_self (l : List String) : (sortStrings l).Perm l :=
  List.perm_insertionSort stringLE l

theorem sortStrings_sorted (l : List String) : (sortStrings l).Sorted stringLE :=
  List.sorted_insertionSort stringLE l

/-- The result of `sort.Strings` does not depend on the order of its input. -/
theorem sortStrings_perm {l₁ l₂ : List String} (h : l₁.Perm l₂) :
    sortStrings l₁ = sortStrings l₂ :=
  List.eq_of_perm_of_sorted
    ((sortStrings_perm_self l₁).trans (h.trans (sortStrings_perm_self l₂).symm))
    (sortStrings_sorted l₁) (sortStrings_sorted l₂)

theorem mem_foldl_mapSet (l acc : List String) (x : String) :
    x ∈ l.foldl mapSet acc ↔ x ∈ acc ∨ x ∈ l := by
  induction l generalizing acc with
  | nil => simp
  | cons a l ih =>
    rw [List.foldl_cons, ih]
    unfold mapSet
    by_cases h : a ∈ acc
    · rw [if_pos h]
      constructor
      · rintro (h1 | h1)
        · exact Or.inl h1
        · exact Or.inr (List.mem_cons_of_mem _ h1)
      · rintro (h1 | h1)
        · exact Or.inl h1
        · rcases List.mem_cons.1 h1 with rfl | h2
          · exact Or.inl h
          · exact Or.inr h2
    · rw [if_neg h]
      simp only [List.mem_append, List.mem_singleton, List.mem_cons]
      tauto

theorem nodup_foldl_mapSet (l acc : List String) (hacc : acc.Nodup) :
    (l.foldl mapSet acc).Nodup := by
  induction l generalizing acc with
  | nil => simpa using hacc
  | cons a l ih =>
    rw [List.foldl_cons]
    apply ih
    unfold mapSet
    by_cases h : a ∈ acc
    · rw [if_pos h]; exact hacc
    · rw [if_neg h]
      exact List.Nodup.append hacc (List.nodup_singleton a) (by simpa using h)

theorem mem_uniq (l : List String) (x : String) : x ∈ uniq l ↔ x ∈ l := by
  unfold uniq
  rw [(sortStrings_perm_self _).mem_iff, mem_foldl_mapSet]
  simp

theorem nodup_uniq (l : List String) : (uniq l).Nodup := by
  unfold uniq
  exact (sortStrings_perm_self _).nodup_iff.2 (nodup_foldl_mapSet l [] List.nodup_nil)

/-- The output of `uniq` is strictly ascending. -/
theorem uniq_sorted (l : List String) : (uniq l).Sorted (· < ·) := by
  have h1 : (uniq l).Sorted stringLE := sortStrings_sorted _
  have h2 := nodup_uniq l
  unfold List.Sorted at h1 ⊢
  unfold List.Nodup at h2
  refine (h1.and h2).imp ?_
  intro a b hab
  exact lt_of_le_of_ne ((stringLE_iff a b).1 hab.1) hab.2

/-- A strictly ascending list with the members of `l` is `uniq l`. -/
theorem eq_uniq_of_sorted {s l : List String} (hs : s.Sorted (· < ·))
    (hmem : ∀ x, x ∈ s ↔ x ∈ l) : s = uniq l := by
  apply List.eq_of_perm_of_sorted _ hs (uniq_sorted l)
  exact (List.perm_ext_iff_of_nodup hs.nodup (nodup_uniq l)).2
    (fun x => by rw [hmem, mem_uniq])

theorem uniq_congr {l₁ l₂ : List String} (h : ∀ x, x ∈ l₁ ↔ x ∈ l₂) :
    uniq l₁ = uniq l₂ :=
  eq_uniq_of_sorted (uniq_sorted l₁) (fun x => by rw [mem_uniq, h])

theorem uniq_filter (p : String → Bool) (l : List String) :
    uniq (l.filter p) = (uniq l).filter p := by
  symm
  apply eq_uniq_of_sorted
  · exact (uniq_sorted l).sublist (List.filter_sublist _)
  · intro x
    simp only [List.mem_filter, mem_uniq]

theorem length_uniq (l : List String) : (uniq l).length = l.toFinset.card := by
  rw [List.card_toFinset]
  apply List.Perm.length_eq
  exact (List.perm_ext_iff_of_nodup (nodup_uniq l) (List.nodup_dedup l)).2
    (fun x => by rw [mem_uniq, List.mem_dedup])

/-! ## Facts about the string functions -/

theorem HasPrefix_append (pre r : String) : HasPrefix (pre ++ r) pre = true := by
  unfold HasPrefix
  rw [List.isPrefixOf_iff_prefix, String.data_append]
  exact List.prefix_append _ _

theorem HasPrefix_iff (s pre : String) : HasPrefix s pre = true ↔ ∃ r, s = pre ++ r := by
  constructor
  · intro h
    unfold HasPrefix at h
    rw [List.isPrefixOf_iff_prefix] at h
    obtain ⟨t, ht⟩ := h
    exact ⟨⟨t⟩, String.ext (by rw [String.data_append, ht])⟩
  · rintro ⟨r, rfl⟩
    exact HasPrefix_append pre r

theorem TrimPrefix_append (pre r : String) : TrimPrefix (pre ++ r) pre = r := by
  unfold TrimPrefix
  rw [if_pos (HasPrefix_append pre r)]
  apply String.ext
  simp [String.data_append]

theorem TrimPrefix_of_not {s pre : String} (h : HasPrefix s pre = false) :
    TrimPrefix s pre = s := by
  unfold TrimPrefix
  simp [h]

theorem TrimPrefix_tag_scrape (r : String) :
    TrimPrefix ("scrape_" ++ r) "tag:" = "scrape_" ++ r := by
  apply TrimPrefix_of_not
  unfold HasPrefix
  rw [String.data_append]
  rfl

theorem TrimPrefix_tag_shape (p a : String) :
    TrimPrefix ("scrape_" ++ p ++ "_" ++ a) "tag:" = "scrape_" ++ p ++ "_" ++ a := by
  have e : "scrape_" ++ p ++ "_" ++ a = "scrape_" ++ (p ++ "_" ++ a) := by
    apply String.ext
    simp [String.data_append]
  rw [e, TrimPrefix_tag_scrape]

theorem indexChars_single_append (c : Char) (p a : List Char) (hp : c ∉ p) :
    indexChars [c] (p ++ c :: a) = some p.length := by
  induction p with
  | nil => simp [indexChars]
  | cons x p ih =>
    have hx : c ≠ x := fun h => hp (h ▸ List.mem_cons_self _ _)
    have hp2 : c ∉ p := fun h => hp (List.mem_cons_of_mem _ h)
    simp [indexChars, hx, ih hp2]

theorem indexChars_single_none (c : Char) (r : List Char) (hr : c ∉ r) :
    indexChars [c] r = none := by
  induction r with
  | nil => simp [indexChars]
  | cons x r ih =>
    have hx : c ≠ x := fun h => hr (h ▸ List.mem_cons_self _ _)
    have hr2 : c ∉ r := fun h => hr (List.mem_cons_of_mem _ h)
    simp [indexChars, hx, ih hr2]

theorem indexChars_single_some (c : Char) (l : List Char) (i : Nat)
    (h : indexChars [c] l = some i) :
    l = l.take i ++ c :: l.drop (i + 1) ∧ c ∉ l.take i := by
  induction l generalizing i with
  | nil => simp [indexChars] at h
  | cons x l ih =>
    by_cases hx : c = x
    · subst hx
      simp [indexChars] at h
      subst h
      simp
    · simp [indexChars, hx] at h
      obtain ⟨j, hj, rfl⟩ := h
      obtain ⟨h1, h2⟩ := ih j hj
      refine ⟨?_, ?_⟩
      · simp only [List.take_succ_cons, List.drop_succ_cons, List.cons_append]
        rw [← h1]
      · simp only [List.take_succ_cons, List.mem_cons, not_or]
        exact ⟨hx, h2⟩

theorem Cut_underscore (p a : String) (hp : '_' ∉ p.data) :
    Cut (p ++ "_" ++ a) "_" = (p, a, true) := by
  have h : Index (p ++ "_" ++ a) "_" = some p.data.length := by
    unfold Index
    have := indexChars_single_append '_' p.data a.data hp
    simpa [String.data_append] using this
  unfold Cut
  rw [h]
  simp only [Prod.mk.injEq, and_true]
  constructor
  · apply String.ext
    simp [String.data_append]
  · apply String.ext
    have : ("_" : String).data.length = 1 := rfl
    rw [this]
    show List.drop (p.data.length + 1) (p ++ "_" ++ a).data = a.data
    rw [String.data_append, String.data_append]
    exact @List.drop_left' _ (p.data ++ ("_" : String).data) a.data _
      (List.length_append _ _)

theorem Cut_not_found (r : String) (hr : '_' ∉ r.data) :
    Cut r "_" = (r, "", false) := by
  have h : Index r "_" = none := indexChars_single_none '_' r.data hr
  unfold Cut
  rw [h]

theorem Cut_found {s p a : String} (h : Cut s "_" = (p, a, true)) :
    s = p ++ "_" ++ a ∧ '_' ∉ p.data := by
  unfold Cut at h
  cases hi : Index s "_" with
  | none => rw [hi] at h; simp at h
  | some i =>
    rw [hi] at h
    simp only [Prod.mk.injEq, and_true] at h
    obtain ⟨h1, h2⟩ := h
    obtain ⟨e1, e2⟩ := indexChars_single_some '_' s.data i hi
    have hlen : ("_" : String).data.length = 1 := rfl
    rw [hlen] at h2
    subst h1
    subst h2
    refine ⟨?_, e2⟩
    apply String.ext
    simpa [String.data_append] using e1

/-! ## Facts about `Atoi` -/

theorem parseDigits_digits (ds : List Char) (k v : Nat) (h : parseDigits ds k = some v) :
    ∀ c ∈ ds, '0' ≤ c ∧ c ≤ '9' := by
  induction ds generalizing k with
  | nil => simp
  | cons x ds ih =>
    unfold parseDigits at h
    by_cases hx : '0' ≤ x ∧ x ≤ '9'
    · rw [if_pos hx] at h
      intro c hc
      rcases List.mem_cons.1 hc with rfl | hc
      · exact hx
      · exact ih _ h c hc
    · rw [if_neg hx] at h
      exact absurd h (by simp)

theorem underscore_not_digit : ¬ ('0' ≤ '_' ∧ '_' ≤ '9') := by decide

theorem parseDigits_no_underscore (ds : List Char) (k v : Nat)
    (h : parseDigits ds k = some v) : '_' ∉ ds :=
  fun hmem => underscore_not_digit (parseDigits_digits ds k v h '_' hmem)

theorem ParseUint_some {s : List Char} {b n : Nat} (h : ParseUint s b = some n) :
    parseDigits s 0 = some n ∧ n < 2 ^ b := by
  unfold ParseUint at h
  split at h
  · simp at h
  · split at h
    · simp at h
    · split at h
      · rename_i hd hlt
        simp only [Option.some.injEq] at h
        subst h
        exact ⟨hd, hlt⟩
      · simp at h

theorem sign_ne_underscore {c : Char} (h : (c == '+' || c == '-') = true) : c ≠ '_' := by
  rintro rfl
  revert h
  decide

theorem ParseInt_no_underscore {s : List Char} {b : Nat} {n : Int}
    (h : ParseInt s b = some n) : '_' ∉ s := by
  unfold ParseInt at h
  split at h
  · simp at h
  · rename_i c cs
    simp only at h
    split at h
    · simp at h
    · rename_i un hun
      have hd := parseDigits_no_underscore _ _ _ (ParseUint_some hun).1
      by_cases hs : (c == '+' || c == '-') = true
      · rw [if_pos hs] at hd
        intro hmem
        rcases List.mem_cons.1 hmem with e | e
        · exact sign_ne_underscore hs e.symm
        · exact hd e
      · rw [if_neg hs] at hd
        exact hd

theorem Atoi_no_underscore {intSize : Nat} {p : String} {n : Int}
    (h : Atoi intSize p = some n) : '_' ∉ p.data := by
  unfold Atoi at h
  simp only at h
  split at h
  · cases hcs : p.data with
    | nil => rw [hcs] at h; simp at h
    | cons c cs =>
      rw [hcs] at h
      simp only at h
      generalize hd : (if (c == '-' || c == '+') = true then cs else c :: cs) = digits at h
      by_cases hl : digits.length < 1
      · rw [if_pos hl] at h
        simp at h
      · rw [if_neg hl] at h
        cases hv : parseDigits digits 0 with
        | none => rw [hv] at h; simp at h
        | some v =>
          have hdig := parseDigits_no_underscore _ _ _ hv
          by_cases hs : (c == '-' || c == '+') = true
          · rw [if_pos hs] at hd
            subst hd
            intro hmem
            rcases List.mem_cons.1 hmem with e | e
            · exact sign_ne_underscore (by rw [Bool.or_comm]; exact hs) e.symm
            · exact hdig e
          · rw [if_neg hs] at hd
            subst hd
            exact hdig
  · exact ParseInt_no_underscore h

theorem Atoi_empty (intSize : Nat) : Atoi intSize "" = none := by
  unfold Atoi
  simp [ParseInt]

theorem digit_value_le {c : Char} (h : '0' ≤ c ∧ c ≤ '9') : c.toNat - '0'.toNat ≤ 9 := by
  have h9 : c.toNat ≤ '9'.toNat := h.2
  have e9 : '9'.toNat = 57 := rfl
  have e0 : '0'.toNat = 48 := rfl
  omega

theorem digit_not_sign {c : Char} (h : '0' ≤ c ∧ c ≤ '9') :
    (c == '-') = false ∧ (c == '+') = false := by
  have h0 : '0'.toNat ≤ c.toNat := h.1
  have e0 : '0'.toNat = 48 := rfl
  constructor
  · rw [beq_eq_false_iff_ne]
    rintro rfl
    revert h0
    decide
  · rw [beq_eq_false_iff_ne]
    rintro rfl
    revert h0
    decide

/-- The value of a digit text is below `(n + 1) * 10 ^ length`. -/
theorem parseDigits_lt (ds : List Char) (k v : Nat) (h : parseDigits ds k = some v) :
    v < (k + 1) * 10 ^ ds.length := by
  induction ds generalizing k with
  | nil =>
    simp only [parseDigits, Option.some.injEq] at h
    subst h
    simp
  | cons x ds ih =>
    unfold parseDigits at h
    by_cases hx : '0' ≤ x ∧ x ≤ '9'
    · rw [if_pos hx] at h
      have h1 := ih _ h
      have h2 := digit_value_le hx
      have h3 : (k * 10 + (x.toNat - '0'.toNat) + 1) * 10 ^ ds.length ≤
          ((k + 1) * 10) * 10 ^ ds.length :=
        Nat.mul_le_mul_right _ (by omega)
      rw [List.length_cons, pow_succ]
      calc v < (k * 10 + (x.toNat - '0'.toNat) + 1) * 10 ^ ds.length := h1
        _ ≤ ((k + 1) * 10) * 10 ^ ds.length := h3
        _ = (k + 1) * (10 ^ ds.length * 10) := by ring
    · rw [if_neg hx] at h
      exact absurd h (by simp)

theorem Atoi_above_range (intSize : Nat) (p : String) (v : Nat)
    (hv : parseDigits p.data 0 = some v) (hr : 2 ^ (intSize - 1) ≤ v) :
    Atoi intSize p = none := by
  unfold Atoi
  simp only
  cases hcs : p.data with
  | nil =>
    simp [ParseInt]
  | cons c cs =>
    rw [hcs] at hv
    have hc := parseDigits_digits _ _ _ hv c (List.mem_cons_self _ _)
    obtain ⟨hm, hpl⟩ := digit_not_sign hc
    have hlt := parseDigits_lt _ _ _ hv
    by_cases hfast : (intSize = 32 ∧ 0 < (c :: cs).length ∧ (c :: cs).length < 10) ∨
        (intSize = 64 ∧ 0 < (c :: cs).length ∧ (c :: cs).length < 19)
    · exfalso
      rcases hfast with ⟨rfl, -, hl⟩ | ⟨rfl, -, hl⟩
      · have h1 : 10 ^ (c :: cs).length ≤ 10 ^ 9 := Nat.pow_le_pow_right (by norm_num) (by omega)
        norm_num at hr h1 hlt
        omega
      · have h1 : 10 ^ (c :: cs).length ≤ 10 ^ 18 := Nat.pow_le_pow_right (by norm_num) (by omega)
        norm_num at hr h1 hlt
        omega
    · rw [if_neg hfast]
      simp only [ParseInt, ParseUint, hm, hpl, Bool.or_self, Bool.false_eq_true, if_false, hv]
      by_cases h2 : v < 2 ^ intSize
      · simp [h2, hr]
      · simp [h2]

theorem Atoi_below_range (intSize : Nat) (p : String) (v : Nat)
    (hv : parseDigits p.data 0 = some v) (hr : 2 ^ (intSize - 1) < v) :
    Atoi intSize ("-" ++ p) = none := by
  have hd : ("-" ++ p).data = '-' :: p.data := by rw [String.data_append]; rfl
  have hlt := parseDigits_lt _ _ _ hv
  unfold Atoi
  simp only
  rw [hd]
  by_cases hfast : (intSize = 32 ∧ 0 < ('-' :: p.data).length ∧ ('-' :: p.data).length < 10) ∨
      (intSize = 64 ∧ 0 < ('-' :: p.data).length ∧ ('-' :: p.data).length < 19)
  · exfalso
    rcases hfast with ⟨rfl, -, hl⟩ | ⟨rfl, -, hl⟩
    · have h1 : 10 ^ p.data.length ≤ 10 ^ 9 :=
        Nat.pow_le_pow_right (by norm_num) (by simp only [List.length_cons] at hl; omega)
      norm_num at hr h1 hlt
      omega
    · have h1 : 10 ^ p.data.length ≤ 10 ^ 18 :=
        Nat.pow_le_pow_right (by norm_num) (by simp only [List.length_cons] at hl; omega)
      norm_num at hr h1 hlt
      omega
  · rw [if_neg hfast]
    cases hp : p.data with
    | nil => simp [ParseInt, ParseUint]
    | cons c cs =>
      rw [hp] at hv
      have hsign : (('-' : Char) == '+' || ('-' : Char) == '-') = true := by decide
      simp only [ParseInt, ParseUint]
      rw [if_pos hsign]
      simp only []
      rw [hv]
      by_cases h2 : v < 2 ^ intSize
      · simp [h2, hr]
      · simp [h2]

/-! ## Facts about the loop body -/

theorem tagTarget_of_trimmed (intSize : Nat) (ip nodeName t p a : String) (n : Int)
    (ht : TrimPrefix t "tag:" = "scrape_" ++ p ++ "_" ++ a)
    (hp : Atoi intSize p = some n) :
    tagTarget intSize ip nodeName t = some (mkTarget ip nodeName n a) := by
  have e : "scrape_" ++ p ++ "_" ++ a = "scrape_" ++ (p ++ "_" ++ a) := by
    apply String.ext
    simp [String.data_append]
  unfold tagTarget
  simp only [ht]
  rw [e, HasPrefix_append, TrimPrefix_append, Cut_underscore p a (Atoi_no_underscore hp)]
  simp [hp, mkTarget]

/-- A tag of the shape `scrape_<p>_<a>` or `tag:scrape_<p>_<a>` with `p` an
integer text gives the record of port `p` and application `a`. -/
theorem tagTarget_of_shape (intSize : Nat) (ip nodeName t p a : String) (n : Int)
    (ht : t = "scrape_" ++ p ++ "_" ++ a ∨ t = "tag:" ++ ("scrape_" ++ p ++ "_" ++ a))
    (hp : Atoi intSize p = some n) :
    tagTarget intSize ip nodeName t = some (mkTarget ip nodeName n a) := by
  apply tagTarget_of_trimmed intSize ip nodeName t p a n _ hp
  rcases ht with rfl | rfl
  · have e : "scrape_" ++ p ++ "_" ++ a = "scrape_" ++ (p ++ "_" ++ a) := by
      apply String.ext
      simp [String.data_append]
    rw [e, TrimPrefix_tag_scrape]
  · exact TrimPrefix_append _ _

/-- Every record comes from a tag that, once `tag:` is trimmed, reads
`scrape_<p>_<a>` with `p` free of `_` and accepted by `Atoi`. -/
theorem tagTarget_eq_some (intSize : Nat) (ip nodeName t : String) (r : DiscoveryTarget)
    (h : tagTarget intSize ip nodeName t = some r) :
    ∃ p a n, TrimPrefix t "tag:" = "scrape_" ++ p ++ "_" ++ a ∧ '_' ∉ p.data ∧
      Atoi intSize p = some n ∧ r = mkTarget ip nodeName n a := by
  unfold tagTarget at h
  simp only at h
  by_cases hpre : HasPrefix (TrimPrefix t "tag:") "scrape_" = true
  · simp only [hpre, Bool.not_true, Bool.false_eq_true, if_false] at h
    obtain ⟨rest, hrest⟩ := (HasPrefix_iff _ _).1 hpre
    rw [hrest, TrimPrefix_append] at h
    cases hcut : Cut rest "_" with
    | mk portStr tail =>
      cases tail with
      | mk appName found =>
        rw [hcut] at h
        simp only at h
        cases found with
        | false => simp at h
        | true =>
          simp only [Bool.not_true, Bool.false_eq_true, if_false] at h
          cases hport : Atoi intSize portStr with
          | none => rw [hport] at h; simp at h
          | some port =>
            rw [hport] at h
            simp only [Option.some.injEq] at h
            obtain ⟨e1, e2⟩ := Cut_found hcut
            refine ⟨portStr, appName, port, ?_, e2, hport, h.symm⟩
            rw [hrest, e1]
            apply String.ext
            simp [String.data_append]
  · simp [hpre] at h

theorem tagTarget_eq_none_of_no_marker (intSize : Nat) (ip nodeName t : String)
    (h : ¬ ∃ r, TrimPrefix t "tag:" = "scrape_" ++ r) :
    tagTarget intSize ip nodeName t = none := by
  cases hr : tagTarget intSize ip nodeName t with
  | none => rfl
  | some r =>
    obtain ⟨p, a, n, e, -, -, -⟩ := tagTarget_eq_some intSize ip nodeName t r hr
    exact absurd ⟨p ++ "_" ++ a, by rw [e]; apply String.ext; simp [String.data_append]⟩ h

theorem tagTarget_eq_none_of_no_separator (intSize : Nat) (ip nodeName t r : String)
    (ht : TrimPrefix t "tag:" = "scrape_" ++ r) (hr : '_' ∉ r.data) :
    tagTarget intSize ip nodeName t = none := by
  unfold tagTarget
  simp only [ht]
  rw [HasPrefix_append, TrimPrefix_append, Cut_not_found r hr]
  simp

theorem tagTarget_eq_none_of_bad_port (intSize : Nat) (ip nodeName t p a : String)
    (ht : TrimPrefix t "tag:" = "scrape_" ++ p ++ "_" ++ a) (hp : '_' ∉ p.data)
    (hn : Atoi intSize p = none) :
    tagTarget intSize ip nodeName t = none := by
  have e : "scrape_" ++ p ++ "_" ++ a = "scrape_" ++ (p ++ "_" ++ a) := by
    apply String.ext
    simp [String.data_append]
  unfold tagTarget
  simp only [ht]
  rw [e, HasPrefix_append, TrimPrefix_append, Cut_underscore p a hp]
  simp [hn]

/-! ## Facts about the loops -/

theorem foldl_append_filterMap {α β : Type} (f : α → Option β)
    (step : List β → α → List β) (hstep : ∀ acc x, step acc x = acc ++ (f x).toList)
    (l : List α) (acc : List β) :
    l.foldl step acc = acc ++ l.filterMap f := by
  induction l generalizing acc with
  | nil => simp
  | cons x l ih =>
    rw [List.foldl_cons, ih, hstep]
    cases hx : f x with
    | none => simp [List.filterMap_cons, hx]
    | some y => simp [List.filterMap_cons, hx]

theorem machineStep_eq (intSize : Nat) (result : List DiscoveryTarget) (machine : Machine) :
    machineStep intSize result machine = result ++ machineTargets intSize machine := by
  unfold machineStep machineTargets Machine.allTags
  cases machine.IpAddresses with
  | nil => simp
  | cons ip rest =>
    dsimp only
    apply foldl_append_filterMap (tagTarget intSize ip machine.GivenName)
    intro acc x
    cases tagTarget intSize ip machine.GivenName x <;> simp

theorem foldl_machineStep (intSize : Nat) (ms : List Machine) (acc : List DiscoveryTarget) :
    ms.foldl (machineStep intSize) acc = acc ++ ms.flatMap (machineTargets intSize) := by
  induction ms generalizing acc with
  | nil => simp
  | cons m ms ih =>
    rw [List.foldl_cons, ih, machineStep_eq, List.flatMap_cons, List.append_assoc]

/-- The nested loops of `ParseDiscoveryTargets` as a flat map over the machines. -/
theorem ParseDiscoveryTargets_eq (intSize : Nat) (ms : List Machine) :
    ParseDiscoveryTargets intSize ⟨ms⟩ = ms.flatMap (machineTargets intSize) := by
  unfold ParseDiscoveryTargets
  rw [foldl_machineStep]
  simp

theorem ParseDiscoveryTargets_append (intSize : Nat) (a b : List Machine) :
    ParseDiscoveryTargets intSize ⟨a ++ b⟩ =
      ParseDiscoveryTargets intSize ⟨a⟩ ++ ParseDiscoveryTargets intSize ⟨b⟩ := by
  simp only [ParseDiscoveryTargets_eq, List.flatMap_append]

theorem ParseDiscoveryTargets_single (intSize : Nat) (m : Machine) :
    ParseDiscoveryTargets intSize ⟨[m]⟩ = machineTargets intSize m := by
  rw [ParseDiscoveryTargets_eq]
  simp

theorem machineTargets_of_addr (intSize : Nat) (m : Machine) (ip : String)
    (rest : List String) (hip : m.IpAddresses = ip :: rest) :
    machineTargets intSize m =
      (uniq m.allTags).filterMap (tagTarget intSize ip m.GivenName) := by
  unfold machineTargets
  rw [hip]

theorem machineTargets_of_no_addr (intSize : Nat) (m : Machine) (hip : m.IpAddresses = []) :
    machineTargets intSize m = [] := by
  unfold machineTargets
  rw [hip]

theorem mem_allTags (m : Machine) (t : String) :
    t ∈ m.allTags ↔ t ∈ m.ForcedTags ∨ t ∈ m.ValidTags ∨ t ∈ m.InvalidTags := by
  unfold Machine.allTags
  simp only [List.mem_append]
  tauto

theorem mem_machineTargets (intSize : Nat) (m : Machine) (r : DiscoveryTarget) :
    r ∈ machineTargets intSize m ↔
      ∃ ip rest, m.IpAddresses = ip :: rest ∧
        ∃ t ∈ m.allTags, tagTarget intSize ip m.GivenName t = some r := by
  cases hip : m.IpAddresses with
  | nil => simp [machineTargets_of_no_addr intSize m hip]
  | cons ip rest =>
    rw [machineTargets_of_addr intSize m ip rest hip]
    simp only [List.mem_filterMap, mem_uniq, List.cons.injEq]
    constructor
    · rintro ⟨t, ht, h⟩
      exact ⟨ip, rest, ⟨rfl, rfl⟩, t, ht, h⟩
    · rintro ⟨ip2, rest2, ⟨rfl, rfl⟩, t, ht, h⟩
      exact ⟨t, ht, h⟩

theorem mem_ParseDiscoveryTargets (intSize : Nat) (list : ListMachineResponse)
    (r : DiscoveryTarget) :
    r ∈ ParseDiscoveryTargets intSize list ↔
      ∃ m ∈ list.Machines, ∃ ip rest, m.IpAddresses = ip :: rest ∧
        ∃ t ∈ m.allTags, tagTarget intSize ip m.GivenName t = some r := by
  cases list with
  | mk ms =>
    rw [ParseDiscoveryTargets_eq]
    simp only [List.mem_flatMap, mem_machineTargets]

theorem filterMap_filter_ne {β : Type} (f : String → Option β) (t : String)
    (ht : f t = none) (l : List String) :
    (l.filter (fun x => decide (x ≠ t))).filterMap f = l.filterMap f := by
  induction l with
  | nil => rfl
  | cons x l ih =>
    simp only [ne_eq, decide_not] at ih ⊢
    by_cases hx : x = t
    · subst hx
      simp [List.filterMap_cons, ht, ih]
    · simp [List.filterMap_cons, hx, ih]

theorem length_filterMap_of_isSome {α β : Type} (f : α → Option β) (l : List α)
    (h : ∀ x ∈ l, (f x).isSome = true) : (l.filterMap f).length = l.length := by
  induction l with
  | nil => rfl
  | cons x l ih =>
    have hx := h x (List.mem_cons_self _ _)
    obtain ⟨y, hy⟩ := Option.isSome_iff_exists.1 hx
    rw [List.filterMap_cons, hy]
    simp [ih (fun z hz => h z (List.mem_cons_of_mem _ hz))]

theorem allTags_removeTag (t : String) (m : Machine) :
    (removeTag t m).allTags = m.allTags.filter (fun x => decide (x ≠ t)) := by
  simp only [removeTag, Machine.allTags, List.filter_append]

theorem machineTargets_removeTag (intSize : Nat) (m : Machine) (t : String)
    (h : ∀ ip, tagTarget intSize ip m.GivenName t = none) :
    machineTargets intSize (removeTag t m) = machineTargets intSize m := by
  cases hip : m.IpAddresses with
  | nil =>
    rw [machineTargets_of_no_addr intSize m hip, machineTargets_of_no_addr]
    exact hip
  | cons ip rest =>
    rw [machineTargets_of_addr intSize m ip rest hip,
      machineTargets_of_addr intSize (removeTag t m) ip rest hip, allTags_removeTag,
      uniq_filter]
    exact filterMap_filter_ne _ t (h ip) _

theorem machineTargets_congr (intSize : Nat) (a b : Machine)
    (hn : a.GivenName = b.GivenName) (hi : a.IpAddresses = b.IpAddresses)
    (ht : ∀ t, t ∈ a.allTags ↔ t ∈ b.allTags) :
    machineTargets intSize a = machineTargets intSize b := by
  unfold machineTargets
  rw [hn, hi, uniq_congr ht]

/-! ## Facts about `HeadscaleList` -/

theorem status_error_ne_parse_error (a b c d : String) :
    "invalid response status code: " ++ a ++ b ≠ "cant parse response: " ++ c ++ d := by
  intro h
  have h2 := congrArg (fun s => s.data.head?) h
  simp [String.data_append] at h2

/-! ## The claims -/

/-- C1, refuted as stated: `0080` parses as an integer and `scrape_0080_web` is a
valid tag of a node at 10.0.0.5, yet no record has the target `10.0.0.5:0080`;
the only record has `10.0.0.5:80`. -/
theorem port_as_written_counterexample :
    Atoi 64 "0080" = some 80 ∧
      "scrape_" ++ "0080" ++ "_" ++ "web" ∈ padded.ValidTags ∧
      padded.IpAddresses = ["10.0.0.5"] ∧
      ({ Targets := ["10.0.0.5" ++ ":" ++ "0080"],
         Labels := [("node_name", "db1"), ("app", "web")] } : DiscoveryTarget) ∉
        ParseDiscoveryTargets 64 ⟨[padded]⟩ ∧
      ParseDiscoveryTargets 64 ⟨[padded]⟩ =
        [{ Targets := ["10.0.0.5:80"], Labels := [("node_name", "db1"), ("app", "web")] }] := by
  decide

/-- C1 (amended): for a node of the snapshot with first address `ip`, a port text
`p` that `Atoi` reads as `n` and any application name `a`, a tag `scrape_<p>_<a>`
or `tag:scrape_<p>_<a>` in one of the three collections makes
`ParseDiscoveryTargets` return the record with the single target
`ip:<decimal form of n>` and the labels `node_name`, `app = a`; the port is the
text `p` itself whenever `p` is the decimal form of `n`. -/
theorem qualifying_tag_gives_record (intSize : Nat) (list : ListMachineResponse)
    (m : Machine) (ip : String) (rest : List String) (p a t : String) (n : Int)
    (hm : m ∈ list.Machines) (hip : m.IpAddresses = ip :: rest)
    (hp : Atoi intSize p = some n)
    (ht : t = "scrape_" ++ p ++ "_" ++ a ∨ t = "tag:" ++ ("scrape_" ++ p ++ "_" ++ a))
    (hmem : t ∈ m.ForcedTags ∨ t ∈ m.ValidTags ∨ t ∈ m.InvalidTags) :
    ({ Targets := [ip ++ ":" ++ formatInt n],
       Labels := [("node_name", m.GivenName), ("app", a)] } : DiscoveryTarget) ∈
        ParseDiscoveryTargets intSize list ∧
      (formatInt n = p →
        ({ Targets := [ip ++ ":" ++ p],
           Labels := [("node_name", m.GivenName), ("app", a)] } : DiscoveryTarget) ∈
          ParseDiscoveryTargets intSize list) := by
  have key : mkTarget ip m.GivenName n a ∈ ParseDiscoveryTargets intSize list :=
    (mem_ParseDiscoveryTargets intSize list _).2
      ⟨m, hm, ip, rest, hip, t, (mem_allTags m t).2 hmem,
        tagTarget_of_shape intSize ip m.GivenName t p a n ht hp⟩
  refine ⟨key, fun hcanon => ?_⟩
  unfold mkTarget at key
  rw [hcanon] at key
  exact key

/-- C1 (amended) at the scenario of the specification: `db1` at 10.0.0.5 with
`tag:scrape_9090_node_exporter`. -/
theorem qualifying_tag_gives_record_witness :
    ({ Targets := ["10.0.0.5" ++ ":" ++ formatInt 9090],
       Labels := [("node_name", db1.GivenName), ("app", "node_exporter")] } :
        DiscoveryTarget) ∈ ParseDiscoveryTargets 64 ⟨[ghost, db1]⟩ ∧
      (formatInt 9090 = "9090" →
        ({ Targets := ["10.0.0.5" ++ ":" ++ "9090"],
           Labels := [("node_name", db1.GivenName), ("app", "node_exporter")] } :
            DiscoveryTarget) ∈ ParseDiscoveryTargets 64 ⟨[ghost, db1]⟩) :=
  qualifying_tag_gives_record 64 ⟨[ghost, db1]⟩ db1 "10.0.0.5" [] "9090" "node_exporter"
    "tag:scrape_9090_node_exporter" 9090 (by decide) rfl (by decide) (Or.inr (by decide))
    (Or.inr (Or.inl (by decide)))

/-- C2, refuted as stated: the tag `scrape_80_` on a node with an address gives a
record, and its `app` label is empty. -/
theorem empty_app_counterexample :
    ParseDiscoveryTargets 64 ⟨[bare]⟩ =
        [{ Targets := ["10.0.0.9:80"], Labels := [("node_name", "web9"), ("app", "")] }] ∧
      ∃ r ∈ ParseDiscoveryTargets 64 ⟨[bare]⟩, ("app", "") ∈ r.Labels := by
  decide

/-- C2 (amended): every record returned by `ParseDiscoveryTargets` comes from a
tag of one of the snapshot's nodes that reads, after an optional `tag:`,
`scrape_<p>_<a>` with `p` a non-empty integer text without `_`; its `app` label
is `a`, whatever `a` is, and an empty `a` is not discarded. -/
theorem record_comes_from_tag (intSize : Nat) (list : ListMachineResponse) :
    (∀ r ∈ ParseDiscoveryTargets intSize list,
      ∃ m ∈ list.Machines, ∃ ip rest, m.IpAddresses = ip :: rest ∧
        ∃ t ∈ m.ForcedTags ++ m.ValidTags ++ m.InvalidTags, ∃ p a n,
          TrimPrefix t "tag:" = "scrape_" ++ p ++ "_" ++ a ∧ p ≠ "" ∧ '_' ∉ p.data ∧
          Atoi intSize p = some n ∧
          r = { Targets := [ip ++ ":" ++ formatInt n],
                Labels := [("node_name", m.GivenName), ("app", a)] }) ∧
    (∀ (ip nodeName p : String) (n : Int), Atoi intSize p = some n →
      tagTarget intSize ip nodeName ("scrape_" ++ p ++ "_" ++ "") =
        some { Targets := [ip ++ ":" ++ formatInt n],
               Labels := [("node_name", nodeName), ("app", "")] }) := by
  constructor
  · intro r hr
    obtain ⟨m, hm, ip, rest, hip, t, ht, htag⟩ := (mem_ParseDiscoveryTargets intSize list r).1 hr
    obtain ⟨p, a, n, e, hu, hp, rfl⟩ := tagTarget_eq_some intSize ip m.GivenName t r htag
    refine ⟨m, hm, ip, rest, hip, t, ht, p, a, n, e, ?_, hu, hp, rfl⟩
    rintro rfl
    rw [Atoi_empty] at hp
    exact absurd hp (by simp)
  · intro ip nodeName p n hp
    exact tagTarget_of_shape intSize ip nodeName _ p "" n (Or.inl rfl) hp

/-- C2 (amended) at the node `bare`. -/
theorem record_comes_from_tag_witness :
    (∃ m ∈ [bare], ∃ ip rest, m.IpAddresses = ip :: rest ∧
        ∃ t ∈ m.ForcedTags ++ m.ValidTags ++ m.InvalidTags, ∃ p a n,
          TrimPrefix t "tag:" = "scrape_" ++ p ++ "_" ++ a ∧ p ≠ "" ∧ '_' ∉ p.data ∧
          Atoi 64 p = some n ∧
          ({ Targets := ["10.0.0.9:80"], Labels := [("node_name", "web9"), ("app", "")] } :
            DiscoveryTarget) =
            { Targets := [ip ++ ":" ++ formatInt n],
              Labels := [("node_name", m.GivenName), ("app", a)] }) ∧
      tagTarget 64 "10.0.0.9" "web9" ("scrape_" ++ "80" ++ "_" ++ "") =
        some { Targets := ["10.0.0.9" ++ ":" ++ formatInt 80],
               Labels := [("node_name", "web9"), ("app", "")] } :=
  ⟨(record_comes_from_tag 64 ⟨[bare]⟩).1 _ (by decide),
    (record_comes_from_tag 64 ⟨[bare]⟩).2 "10.0.0.9" "web9" "80" 80 (by decide)⟩

/-- C3: a tag that, once one leading `tag:` is removed, does not start with
`scrape_`, or has no `_` after `scrape_`, or has a text before that `_` which
`Atoi` rejects, can be removed from the three collections of its node without
changing the records `ParseDiscoveryTargets` returns for the snapshot. -/
theorem malformed_tag_is_skipped (intSize : Nat) (front back : List Machine) (m : Machine)
    (t : String)
    (h : (¬ ∃ r, TrimPrefix t "tag:" = "scrape_" ++ r) ∨
      (∃ r, TrimPrefix t "tag:" = "scrape_" ++ r ∧ '_' ∉ r.data) ∨
      (∃ p a, TrimPrefix t "tag:" = "scrape_" ++ p ++ "_" ++ a ∧ '_' ∉ p.data ∧
        Atoi intSize p = none)) :
    ParseDiscoveryTargets intSize ⟨front ++ m :: back⟩ =
      ParseDiscoveryTargets intSize ⟨front ++ removeTag t m :: back⟩ := by
  have hnone : ∀ ip, tagTarget intSize ip m.GivenName t = none := by
    intro ip
    rcases h with h | ⟨r, hr, hu⟩ | ⟨p, a, hpa, hu, hn⟩
    · exact tagTarget_eq_none_of_no_marker intSize ip _ t h
    · exact tagTarget_eq_none_of_no_separator intSize ip _ t r hr hu
    · exact tagTarget_eq_none_of_bad_port intSize ip _ t p a hpa hu hn
  simp only [ParseDiscoveryTargets_eq, List.flatMap_append, List.flatMap_cons,
    machineTargets_removeTag intSize m t hnone]

/-- C3 at the two scenarios of the specification: `scrape_abc_web` on the node
at 10.0.0.9 (no record at all) and `tag:env_prod` on `db1` (only the
`node_exporter` record). -/
theorem malformed_tag_is_skipped_witness :
    (ParseDiscoveryTargets 64 ⟨[] ++ web9 :: []⟩ =
        ParseDiscoveryTargets 64 ⟨[] ++ removeTag "scrape_abc_web" web9 :: []⟩ ∧
      ParseDiscoveryTargets 64 ⟨[web9]⟩ = []) ∧
    (ParseDiscoveryTargets 64 ⟨[] ++ db1 :: []⟩ =
        ParseDiscoveryTargets 64 ⟨[] ++ removeTag "tag:env_prod" db1 :: []⟩ ∧
      ParseDiscoveryTargets 64 ⟨[db1]⟩ = [db1Record]) :=
  ⟨⟨malformed_tag_is_skipped 64 [] [] web9 "scrape_abc_web"
      (Or.inr (Or.inr ⟨"abc", "web", by decide, by decide, by decide⟩)), by decide⟩,
    ⟨malformed_tag_is_skipped 64 [] [] db1 "tag:env_prod"
      (Or.inl (fun ⟨r, hr⟩ => by
        have h := (HasPrefix_iff _ _).2 ⟨r, hr⟩
        revert h
        decide)), by decide⟩⟩

/-- C4: a node with an address all of whose tags have the qualifying shape gives,
alone in a snapshot, as many records as there are distinct strings among its
forced, valid and invalid tags. -/
theorem qualifying_tags_count (intSize : Nat) (m : Machine) (hip : m.IpAddresses ≠ [])
    (hq : ∀ t ∈ m.ForcedTags ++ m.ValidTags ++ m.InvalidTags, Qualifies intSize t) :
    (ParseDiscoveryTargets intSize ⟨[m]⟩).length =
      (m.ForcedTags ++ m.ValidTags ++ m.InvalidTags).toFinset.card := by
  rw [ParseDiscoveryTargets_single]
  cases hm : m.IpAddresses with
  | nil => exact absurd hm hip
  | cons ip rest =>
    rw [machineTargets_of_addr intSize m ip rest hm, length_filterMap_of_isSome, length_uniq]
    · rfl
    · intro t ht
      obtain ⟨p, a, n, hshape, hp, -⟩ := hq t ((mem_uniq _ _).1 ht)
      rw [tagTarget_of_shape intSize ip m.GivenName t p a n hshape hp]
      rfl

/-- C4 at the node `twin`: `tag:scrape_80_a` and `scrape_80_a`, repeated within
and across the collections, give two records, equal to each other. -/
theorem qualifying_tags_count_witness :
    (ParseDiscoveryTargets 64 ⟨[twin]⟩).length =
        (twin.ForcedTags ++ twin.ValidTags ++ twin.InvalidTags).toFinset.card ∧
      (twin.ForcedTags ++ twin.ValidTags ++ twin.InvalidTags).toFinset.card = 2 ∧
      ParseDiscoveryTargets 64 ⟨[twin]⟩ = [twinRecord, twinRecord] :=
  ⟨qualifying_tags_count 64 twin (by decide) (by
      intro t ht
      have h80 : Atoi 64 "80" = some 80 := by decide
      have hs : t = "scrape_80_a" ∨ t = "tag:scrape_80_a" := by
        simp [twin] at ht
        tauto
      rcases hs with rfl | rfl
      · exact ⟨"80", "a", 80, Or.inl (by decide), h80, by decide⟩
      · exact ⟨"80", "a", 80, Or.inr (by decide), h80, by decide⟩),
    by decide, by decide⟩

/-- C5: two snapshots of equal length whose nodes agree, position by position, on
given name and address list and carry the same set of tag strings in the union
of their three collections give equal record lists. -/
theorem output_depends_on_tag_set (intSize : Nat) (l₁ l₂ : List Machine)
    (h : List.Forall₂
      (fun a b => a.GivenName = b.GivenName ∧ a.IpAddresses = b.IpAddresses ∧
        ∀ t, t ∈ a.ForcedTags ++ a.ValidTags ++ a.InvalidTags ↔
          t ∈ b.ForcedTags ++ b.ValidTags ++ b.InvalidTags) l₁ l₂) :
    ParseDiscoveryTargets intSize ⟨l₁⟩ = ParseDiscoveryTargets intSize ⟨l₂⟩ := by
  rw [ParseDiscoveryTargets_eq, ParseDiscoveryTargets_eq]
  induction h with
  | nil => rfl
  | cons hab _ ih =>
    rw [List.flatMap_cons, List.flatMap_cons, ih,
      machineTargets_congr intSize _ _ hab.1 hab.2.1 hab.2.2]

/-- C5 at `twin` and `twinShuffled`: the same tags in another order, with other
multiplicities and in other collections. -/
theorem output_depends_on_tag_set_witness :
    ParseDiscoveryTargets 64 ⟨[db1, twin]⟩ = ParseDiscoveryTargets 64 ⟨[db1, twinShuffled]⟩ :=
  output_depends_on_tag_set 64 [db1, twin] [db1, twinShuffled]
    (List.Forall₂.cons ⟨rfl, rfl, fun _ => Iff.rfl⟩
      (List.Forall₂.cons
        ⟨rfl, rfl, fun t => by
          simp only [twin, twinShuffled, List.mem_append, List.mem_cons, List.mem_singleton,
            List.not_mem_nil, or_false, false_or]
          tauto⟩
        List.Forall₂.nil))

/-- C6: a snapshot whose nodes all have an empty address list gives no record,
and a node with an empty address list can be removed from any snapshot without
changing the records. -/
theorem no_address_no_record (intSize : Nat) :
    (∀ ms : List Machine, (∀ m ∈ ms, m.IpAddresses = []) →
      ParseDiscoveryTargets intSize ⟨ms⟩ = []) ∧
    (∀ (front back : List Machine) (m : Machine), m.IpAddresses = [] →
      ParseDiscoveryTargets intSize ⟨front ++ m :: back⟩ =
        ParseDiscoveryTargets intSize ⟨front ++ back⟩) := by
  constructor
  · intro ms hms
    rw [ParseDiscoveryTargets_eq]
    induction ms with
    | nil => rfl
    | cons m ms ih =>
      rw [List.flatMap_cons, machineTargets_of_no_addr intSize m (hms m (List.mem_cons_self _ _)),
        ih (fun x hx => hms x (List.mem_cons_of_mem _ hx))]
      rfl
  · intro front back m hm
    simp only [ParseDiscoveryTargets_eq, List.flatMap_append, List.flatMap_cons,
      machineTargets_of_no_addr intSize m hm, List.nil_append]

/-- C6 at the node `ghost`, which has qualifying tags and no address. -/
theorem no_address_no_record_witness :
    ParseDiscoveryTargets 64 ⟨[ghost, ghost]⟩ = [] ∧
      ParseDiscoveryTargets 64 ⟨[db1] ++ ghost :: [twin]⟩ =
        ParseDiscoveryTargets 64 ⟨[db1] ++ [twin]⟩ :=
  ⟨(no_address_no_record 64).1 [ghost, ghost] (by decide),
    (no_address_no_record 64).2 [db1] [twin] ghost rfl⟩

/-- C7: every record returned by `ParseDiscoveryTargets` has exactly one target
and a label mapping with exactly the keys `node_name` and `app`. -/
theorem record_shape (intSize : Nat) (list : ListMachineResponse) (r : DiscoveryTarget)
    (hr : r ∈ ParseDiscoveryTargets intSize list) :
    r.Targets.length = 1 ∧ r.Labels.map Prod.fst = ["node_name", "app"] := by
  obtain ⟨m, -, ip, rest, -, t, -, ht⟩ := (mem_ParseDiscoveryTargets intSize list r).1 hr
  obtain ⟨p, a, n, -, -, -, rfl⟩ := tagTarget_eq_some intSize ip m.GivenName t r ht
  exact ⟨rfl, rfl⟩

/-- C7 at the record of `db1`. -/
theorem record_shape_witness :
    db1Record ∈ ParseDiscoveryTargets 64 ⟨[db1]⟩ ∧
      db1Record.Targets.length = 1 ∧ db1Record.Labels.map Prod.fst = ["node_name", "app"] :=
  ⟨by decide, record_shape 64 ⟨[db1]⟩ db1Record (by decide)⟩

/-- C8, refuted as stated: 201 is a success (2xx) status, the body decodes, and
`HeadscaleList` still fails with the status error. -/
theorem success_status_counterexample :
    ((200 : Int) ≤ 201 ∧ (201 : Int) < 300) ∧
      HeadscaleList (fun _ => .ok ⟨[db1]⟩) (.response 201 "ok") =
        .error "invalid response status code: 201; body: ok" :=
  ⟨by decide, rfl⟩

/-- C8 (amended): once the body has been read, `HeadscaleList` fails with the
status error exactly when the status code is not 200 (`http.StatusOK`); the
failure returns no snapshot and its text is
`invalid response status code: <decimal code>; body: <raw body>`; with status
200 and a body that decodes, the decoded snapshot is returned. -/
theorem status_error_iff_not_ok (unmarshal : String → Except String ListMachineResponse)
    (statusCode : Int) (data : String) :
    (HeadscaleList unmarshal (.response statusCode data) =
        .error ("invalid response status code: " ++ formatInt statusCode ++ "; body: " ++ data) ↔
      statusCode ≠ 200) ∧
    (statusCode ≠ 200 → ∀ snapshot,
      HeadscaleList unmarshal (.response statusCode data) ≠ .ok snapshot) ∧
    (statusCode = 200 → ∀ snapshot, unmarshal data = .ok snapshot →
      HeadscaleList unmarshal (.response statusCode data) = .ok snapshot) := by
  by_cases hs : statusCode = 200
  · subst hs
    refine ⟨?_, fun h => absurd rfl h, ?_⟩
    · simp only [HeadscaleList, StatusOK, ne_eq, not_true_eq_false, if_false, iff_false]
      cases unmarshal data with
      | error err =>
        simp only [Except.error.injEq]
        exact fun h => status_error_ne_parse_error _ _ _ _
          ((String.append_assoc _ _ _).symm.trans h).symm |>.elim
      | ok v => simp
    · intro _ snapshot hsnap
      simp [HeadscaleList, StatusOK, hsnap]
  · refine ⟨?_, ?_, fun h => absurd h hs⟩
    · simp [HeadscaleList, StatusOK, hs]
    · intro _ snapshot
      simp [HeadscaleList, StatusOK, hs]

/-- C8 (amended) at the scenario of the specification, status 500, and at a
status 200 whose body decodes. -/
theorem status_error_iff_not_ok_witness :
    (HeadscaleList (fun _ => .ok ⟨[db1]⟩) (.response 500 "boom") =
        .error "invalid response status code: 500; body: boom" ∧
      ∀ snapshot, HeadscaleList (fun _ => .ok ⟨[db1]⟩) (.response 500 "boom") ≠ .ok snapshot) ∧
    HeadscaleList (fun _ => .ok ⟨[db1]⟩) (.response 200 "body") = .ok ⟨[db1]⟩ :=
  ⟨⟨(status_error_iff_not_ok (fun _ => .ok ⟨[db1]⟩) 500 "boom").1.2 (by decide),
      (status_error_iff_not_ok (fun _ => .ok ⟨[db1]⟩) 500 "boom").2.1 (by decide)⟩,
    (status_error_iff_not_ok (fun _ => .ok ⟨[db1]⟩) 200 "body").2.2 rfl ⟨[db1]⟩ rfl⟩

/-- C9: the records of a snapshot `a ++ b` are those of `a` followed by those of
`b`, and the records of one node are, in order, those of a strictly ascending
list of its raw tag strings: exactly the tags of the node that pass the loop
body, each giving its record. -/
theorem output_order (intSize : Nat) :
    (∀ a b : List Machine, ParseDiscoveryTargets intSize ⟨a ++ b⟩ =
      ParseDiscoveryTargets intSize ⟨a⟩ ++ ParseDiscoveryTargets intSize ⟨b⟩) ∧
    (∀ (m : Machine) (ip : String) (rest : List String), m.IpAddresses = ip :: rest →
      ∃ ts : List String, ts.Sorted (· < ·) ∧
        (∀ t, t ∈ ts ↔ (t ∈ m.ForcedTags ++ m.ValidTags ++ m.InvalidTags ∧
          (tagTarget intSize ip m.GivenName t).isSome = true)) ∧
        List.Forall₂ (fun t r => tagTarget intSize ip m.GivenName t = some r) ts
          (ParseDiscoveryTargets intSize ⟨[m]⟩)) := by
  refine ⟨ParseDiscoveryTargets_append intSize, ?_⟩
  intro m ip rest hip
  refine ⟨(uniq m.allTags).filter (fun t => (tagTarget intSize ip m.GivenName t).isSome),
    (uniq_sorted _).sublist (List.filter_sublist _), ?_, ?_⟩
  · intro t
    simp only [List.mem_filter, mem_uniq]
    rfl
  · rw [ParseDiscoveryTargets_single, machineTargets_of_addr intSize m ip rest hip]
    generalize uniq m.allTags = l
    induction l with
    | nil => exact List.Forall₂.nil
    | cons x l ih =>
      cases hx : tagTarget intSize ip m.GivenName x with
      | none =>
        rw [List.filter_cons_of_neg (by simp [hx]), List.filterMap_cons_none hx]
        exact ih
      | some y =>
        rw [List.filter_cons_of_pos (by simp [hx]), List.filterMap_cons_some hx]
        exact List.Forall₂.cons hx ih

/-- C9 on concrete nodes: concatenation of snapshots, and the node `mixed`, whose
tag `scrape_2_b` comes before `tag:scrape_1_a` because the tags are compared
with the `tag:` marker still on them. -/
theorem output_order_witness :
    ParseDiscoveryTargets 64 ⟨[db1, ghost] ++ [mixed]⟩ =
        ParseDiscoveryTargets 64 ⟨[db1, ghost]⟩ ++ ParseDiscoveryTargets 64 ⟨[mixed]⟩ ∧
      (∃ ts : List String, ts.Sorted (· < ·) ∧
        (∀ t, t ∈ ts ↔ (t ∈ mixed.ForcedTags ++ mixed.ValidTags ++ mixed.InvalidTags ∧
          (tagTarget 64 "10.0.0.6" mixed.GivenName t).isSome = true)) ∧
        List.Forall₂ (fun t r => tagTarget 64 "10.0.0.6" mixed.GivenName t = some r) ts
          (ParseDiscoveryTargets 64 ⟨[mixed]⟩)) ∧
      uniq (mixed.ForcedTags ++ mixed.ValidTags ++ mixed.InvalidTags) =
        ["scrape_2_b", "tag:scrape_1_a"] ∧
      ParseDiscoveryTargets 64 ⟨[mixed]⟩ =
        [{ Targets := ["10.0.0.6:2"], Labels := [("node_name", "mixed"), ("app", "b")] },
         { Targets := ["10.0.0.6:1"], Labels := [("node_name", "mixed"), ("app", "a")] }] :=
  ⟨(output_order 64).1 [db1, ghost] [mixed], (output_order 64).2 mixed "10.0.0.6" [] rfl,
    by decide, by decide⟩

/-- C10: the port of an emitted target is the decimal form of the integer that
`Atoi` reads from the port text of the tag, for every node with an address and
every tag `[tag:]scrape_<p>_<a>`; a digit text whose value is outside the range
of `int` (with or without a minus sign) is skipped; and on the node `edge` the
tags `scrape_+80_web`, `scrape_-5_web`, `scrape_0080_web`, `scrape_70000_web`
give the ports `80`, `-5`, `80`, `70000`, the twenty-digit port none. -/
theorem port_is_decimal_of_value (intSize : Nat) (hsize : intSize = 32 ∨ intSize = 64) :
    (∀ (m : Machine) (ip : String) (rest : List String) (t p a : String) (n : Int),
      m.IpAddresses = ip :: rest →
      t ∈ m.ForcedTags ++ m.ValidTags ++ m.InvalidTags →
      (t = "scrape_" ++ p ++ "_" ++ a ∨ t = "tag:" ++ ("scrape_" ++ p ++ "_" ++ a)) →
      Atoi intSize p = some n →
      tagTarget intSize ip m.GivenName t =
          some { Targets := [ip ++ ":" ++ formatInt n],
                 Labels := [("node_name", m.GivenName), ("app", a)] } ∧
        ({ Targets := [ip ++ ":" ++ formatInt n],
           Labels := [("node_name", m.GivenName), ("app", a)] } : DiscoveryTarget) ∈
          ParseDiscoveryTargets intSize ⟨[m]⟩) ∧
    (∀ (ip nodeName p a : String) (v : Nat), parseDigits p.data 0 = some v →
      (2 ^ (intSize - 1) ≤ v →
        tagTarget intSize ip nodeName ("scrape_" ++ p ++ "_" ++ a) = none) ∧
      (2 ^ (intSize - 1) < v →
        tagTarget intSize ip nodeName ("scrape_" ++ ("-" ++ p) ++ "_" ++ a) = none)) ∧
    ParseDiscoveryTargets intSize ⟨[ports]⟩ =
      [portsRecord "80", portsRecord "-5", portsRecord "80", portsRecord "70000"] := by
  refine ⟨?_, ?_, ?_⟩
  · intro m ip rest t p a n hip ht hshape hp
    have h := tagTarget_of_shape intSize ip m.GivenName t p a n hshape hp
    refine ⟨h, ?_⟩
    exact (mem_ParseDiscoveryTargets intSize ⟨[m]⟩ _).2
      ⟨m, List.mem_singleton.2 rfl, ip, rest, hip, t, ht, h⟩
  · intro ip nodeName p a v hv
    have hu := parseDigits_no_underscore _ _ _ hv
    constructor
    · intro hr
      exact tagTarget_eq_none_of_bad_port intSize ip nodeName _ p a
        (TrimPrefix_tag_shape p a) hu (Atoi_above_range intSize p v hv hr)
    · intro hr
      refine tagTarget_eq_none_of_bad_port intSize ip nodeName _ ("-" ++ p) a
        (TrimPrefix_tag_shape _ a) ?_ (Atoi_below_range intSize p v hv hr)
      have hd : ("-" ++ p).data = '-' :: p.data := by rw [String.data_append]; rfl
      rw [hd]
      intro hmem
      rcases List.mem_cons.1 hmem with e | e
      · exact absurd e (by decide)
      · exact hu e
  · rcases hsize with rfl | rfl <;> decide

/-- C10 on a 64-bit platform: the general statement at the tag `scrape_0080_web`
of `edge`, the bound at `9223372036854775808` and its negative neighbour, and
the records of `edge`. -/
theorem port_is_decimal_of_value_witness :
    (tagTarget 64 "10.0.0.8" ports.GivenName "scrape_0080_web" =
          some { Targets := ["10.0.0.8" ++ ":" ++ formatInt 80],
                 Labels := [("node_name", ports.GivenName), ("app", "web")] } ∧
        ({ Targets := ["10.0.0.8" ++ ":" ++ formatInt 80],
           Labels := [("node_name", ports.GivenName), ("app", "web")] } : DiscoveryTarget) ∈
          ParseDiscoveryTargets 64 ⟨[ports]⟩) ∧
      tagTarget 64 "10.0.0.8" "edge" ("scrape_" ++ "9223372036854775808" ++ "_" ++ "web") = none ∧
      tagTarget 64 "10.0.0.8" "edge"
        ("scrape_" ++ ("-" ++ "9223372036854775809") ++ "_" ++ "web") = none ∧
      ParseDiscoveryTargets 64 ⟨[ports]⟩ =
        [portsRecord "80", portsRecord "-5", portsRecord "80", portsRecord "70000"] :=
  ⟨(port_is_decimal_of_value 64 (Or.inr rfl)).1 ports "10.0.0.8" [] "scrape_0080_web" "0080"
      "web" 80 rfl (by decide) (Or.inl (by decide)) (by decide),
    ((port_is_decimal_of_value 64 (Or.inr rfl)).2.1 "10.0.0.8" "edge" "9223372036854775808"
      "web" 9223372036854775808 (by decide)).1 (by decide),
    ((port_is_decimal_of_value 64 (Or.inr rfl)).2.1 "10.0.0.8" "edge" "9223372036854775809"
      "web" 9223372036854775809 (by decide)).2 (by decide),
    (port_is_decimal_of_value 64 (Or.inr rfl)).2.2⟩

end HeadscaleSD
